import Mathlib

/-!
Verification of the mjolnir routing-graph builder core.

The definitions below are shallow embeddings of the C++ source:
`NodeIdTable`, `GraphBuilder::way_callback`, `GraphBuilder::ConstructEdges`,
`EdgeSorter`, `GetOpposingIndex`, `IsNoThroughEdge` (graphbuilder translation
unit) and `GetOpposingEdgeIndex` plus the country-crossing assignment of
`validate` (graphvalidator translation unit).  Machine integers are modelled
as `Nat`; the only bit arithmetic (the 64-bit words of `NodeIdTable`) never
overflows because each word is an OR of values `1 <<< k` with `k < 64`, so no
`% 2 ^ 64` reduction is needed anywhere.
-/

namespace Mjolnir

/-! ### NodeIdTable (bitset OSM-id table) -/

/-- `NodeIdTable`: a bitset over OSM ids.  `bitmarkers` is the vector of
64-bit words; `maxosmid` is the declared maximum id. -/
structure NodeIdTable where
  maxosmid : Nat
  bitmarkers : List Nat
deriving DecidableEq

/-- The `NodeIdTable` constructor: a word vector of length `maxosmid / 64 + 1`
initialized to zero. -/
def NodeIdTable.init (maxosmid : Nat) : NodeIdTable :=
  { maxosmid := maxosmid, bitmarkers := List.replicate (maxosmid / 64 + 1) 0 }

/-- `NodeIdTable::set`: throws when `id > maxosmid_`, otherwise ORs the bit
`1 << (id % 64)` into word `id / 64`. -/
def NodeIdTable.set (t : NodeIdTable) (id : Nat) : Except String NodeIdTable :=
  if id > t.maxosmid then
    .error "NodeIDTable - OSM Id exceeds max specified"
  else
    let w := (t.bitmarkers.getD (id / 64) 0) ||| (1 <<< (id % 64))
    .ok { t with bitmarkers := t.bitmarkers.set (id / 64) w }

/-- `NodeIdTable::IsUsed`: tests bit `id % 64` of word `id / 64`.  The source
performs no range check; out-of-range word reads are modelled by `getD 0`
while claim C10 treats the bounds condition itself. -/
def NodeIdTable.IsUsed (t : NodeIdTable) (id : Nat) : Bool :=
  (t.bitmarkers.getD (id / 64) 0) &&& (1 <<< (id % 64)) != 0

/-- Sequence of `set` operations (left to right), propagating failure. -/
def NodeIdTable.setAll (t : NodeIdTable) (ids : List Nat) : Except String NodeIdTable :=
  match ids with
  | [] => .ok t
  | id :: rest => (t.set id).bind fun t' => t'.setAll rest

theorem getD_set_self (l : List Nat) (i w : Nat) (h : i < l.length) :
    (l.set i w).getD i 0 = w := by
  induction l generalizing i with
  | nil => simp at h
  | cons a l ih =>
    cases i with
    | zero => simp [List.set, List.getD]
    | succ i =>
      simp only [List.set, List.getD_cons_succ]
      exact ih i (by simpa using h)

theorem getD_set_other (l : List Nat) (i j w : Nat) (h : i ≠ j) :
    (l.set i w).getD j 0 = l.getD j 0 := by
  induction l generalizing i j with
  | nil => simp [List.set]
  | cons a l ih =>
    cases i with
    | zero =>
      cases j with
      | zero => exact absurd rfl h
      | succ j => simp [List.set]
    | succ i =>
      cases j with
      | zero => simp [List.set]
      | succ j =>
        simp only [List.set, List.getD_cons_succ]
        exact ih i j (by omega)

theorem div_mod_eq_iff (j i : Nat) : j = i ↔ (j / 64 = i / 64 ∧ j % 64 = i % 64) := by
  constructor
  · rintro rfl; exact ⟨rfl, rfl⟩
  · rintro ⟨h1, h2⟩; omega

theorem testBit_or_pow (w k j : Nat) :
    (w ||| 2 ^ k).testBit j = (w.testBit j || decide (j = k)) := by
  rw [Nat.testBit_or]
  rcases eq_or_ne j k with rfl | h
  · simp [Nat.testBit_two_pow_self]
  · simp [Nat.testBit_two_pow_of_ne (Ne.symm h), h]

theorem isUsed_eq_testBit (t : NodeIdTable) (id : Nat) :
    t.IsUsed id = (t.bitmarkers.getD (id / 64) 0).testBit (id % 64) := by
  unfold NodeIdTable.IsUsed
  rw [Nat.shiftLeft_eq, one_mul, Nat.and_two_pow]
  cases h : (t.bitmarkers.getD (id / 64) 0).testBit (id % 64) <;>
    simp [h, Nat.pos_iff_ne_zero, Nat.pos_pow_of_pos]

/-- After a successful `set id`, membership is membership-before or `= id`. -/
theorem isUsed_after_set (t t' : NodeIdTable) (id : Nat)
    (hlen : t.bitmarkers.length = t.maxosmid / 64 + 1)
    (hid : id ≤ t.maxosmid)
    (hset : t.set id = .ok t') (j : Nat) :
    t'.IsUsed j = (t.IsUsed j || decide (j = id)) := by
  unfold NodeIdTable.set at hset
  rw [if_neg (by omega)] at hset
  cases hset
  rw [isUsed_eq_testBit, isUsed_eq_testBit]
  simp only
  rcases eq_or_ne (j / 64) (id / 64) with hdiv | hdiv
  · rw [hdiv, getD_set_self _ _ _ (by
      rw [hlen]
      have : id / 64 ≤ t.maxosmid / 64 := Nat.div_le_div_right hid
      omega)]
    rw [Nat.shiftLeft_eq, one_mul, testBit_or_pow]
    rcases eq_or_ne (j % 64) (id % 64) with hmod | hmod
    · rw [hmod]
      have : j = id := (div_mod_eq_iff j id).mpr ⟨hdiv, hmod⟩
      simp [this]
    · have : j ≠ id := fun h => hmod ((div_mod_eq_iff j id).mp h).2
      simp [hmod, this]
  · rw [getD_set_other _ _ _ _ (Ne.symm hdiv)]
    have : j ≠ id := fun h => hdiv ((div_mod_eq_iff j id).mp h).1
    simp [this]

theorem set_ok_of_le (t : NodeIdTable) (id : Nat) (hid : id ≤ t.maxosmid) :
    ∃ t', t.set id = .ok t' ∧ t'.maxosmid = t.maxosmid ∧
      t'.bitmarkers.length = t.bitmarkers.length := by
  unfold NodeIdTable.set
  rw [if_neg (by omega)]
  exact ⟨_, rfl, rfl, by simp⟩

theorem setAll_correct (t : NodeIdTable) (ids : List Nat)
    (hlen : t.bitmarkers.length = t.maxosmid / 64 + 1)
    (hids : ∀ i ∈ ids, i ≤ t.maxosmid) :
    ∃ t', t.setAll ids = .ok t' ∧ t'.maxosmid = t.maxosmid ∧
      t'.bitmarkers.length = t.bitmarkers.length ∧
      ∀ j, t'.IsUsed j = (t.IsUsed j || decide (j ∈ ids)) := by
  induction ids generalizing t with
  | nil => exact ⟨t, rfl, rfl, rfl, by simp⟩
  | cons id rest ih =>
    have hid : id ≤ t.maxosmid := hids id (by simp)
    obtain ⟨t1, hset, hmax1, hlen1⟩ := set_ok_of_le t id hid
    obtain ⟨t2, hall, hmax2, hlen2, hmem⟩ := ih t1
      (by rw [hlen1, hmax1]; exact hlen)
      (fun i hi => by rw [hmax1]; exact hids i (by simp [hi]))
    refine ⟨t2, ?_, by rw [hmax2, hmax1], by rw [hlen2, hlen1], ?_⟩
    · unfold NodeIdTable.setAll
      rw [hset]
      exact hall
    · intro j
      rw [hmem j, isUsed_after_set t t1 id hlen hid hset j]
      by_cases h1 : j = id <;> by_cases h2 : j ∈ rest <;>
        simp [h1, h2]

/-- A Boolean success test for `set`. -/
def NodeIdTable.setOk (t : NodeIdTable) (id : Nat) : Bool :=
  match t.set id with
  | .ok _ => true
  | .error _ => false

/-- C9: `set(id)` fails exactly when `id` exceeds the declared maximum; after
any sequence of successful `set` operations on a fresh table, `IsUsed i` holds
for every inserted `i` and fails for every never-inserted `j ≤ max`. -/
theorem nodeIdTable_correct (max : Nat) (ids : List Nat)
    (hids : ∀ i ∈ ids, i ≤ max) :
    (∀ (t : NodeIdTable) (id : Nat), t.setOk id = false ↔ id > t.maxosmid) ∧
    ∃ t, (NodeIdTable.init max).setAll ids = .ok t ∧
      (∀ i ∈ ids, t.IsUsed i = true) ∧
      (∀ j, j ≤ max → j ∉ ids → t.IsUsed j = false) := by
  constructor
  · intro t id
    unfold NodeIdTable.setOk NodeIdTable.set
    by_cases h : id > t.maxosmid <;> simp [h]
  · obtain ⟨t, hall, hmax, hlen, hmem⟩ := setAll_correct (NodeIdTable.init max) ids
      (by simp [NodeIdTable.init]) (by simpa [NodeIdTable.init] using hids)
    have hfresh : ∀ j, (NodeIdTable.init max).IsUsed j = false := by
      intro j
      rw [isUsed_eq_testBit]
      have : ((NodeIdTable.init max).bitmarkers).getD (j / 64) 0 = 0 := by
        unfold NodeIdTable.init
        cases h : (List.replicate (max / 64 + 1) 0).get? (j / 64) with
        | none => simp [List.getD, h]
        | some v =>
          have hv := List.eq_of_mem_replicate (List.get?_mem h)
          simp [List.getD, h, hv]
      rw [this]
      simp
    refine ⟨t, hall, ?_, ?_⟩
    · intro i hi
      rw [hmem i, hfresh i]
      simp [hi]
    · intro j _ hj
      rw [hmem j, hfresh j]
      simp [hj]

/-- Witness for C9 at `max = 130`, `ids = [3, 70, 129]`. -/
theorem nodeIdTable_correct_w :
    ((NodeIdTable.init 130).setOk 131 = false ↔ 131 > 130) ∧
    ∃ t, (NodeIdTable.init 130).setAll [3, 70, 129] = .ok t ∧
      t.IsUsed 70 = true := by
  have h := nodeIdTable_correct 130 [3, 70, 129] (by decide)
  refine ⟨h.1 (NodeIdTable.init 130) 131, ?_⟩
  obtain ⟨t, hall, hin, _⟩ := h.2
  exact ⟨t, hall, hin 70 (by decide)⟩

/-- C10: `IsUsed` indexes word `id / 64` of a backing store of length
`maxosmid / 64 + 1`; the access is in bounds for every `id ≤ maxosmid`, and
out of bounds for some `id > maxosmid`. -/
theorem isUsed_access_bounds (max : Nat) :
    (NodeIdTable.init max).bitmarkers.length = max / 64 + 1 ∧
    (∀ id, id ≤ max → id / 64 < (NodeIdTable.init max).bitmarkers.length) ∧
    (∃ id, max < id ∧ ¬ id / 64 < (NodeIdTable.init max).bitmarkers.length) := by
  refine ⟨by simp [NodeIdTable.init], ?_, ?_⟩
  · intro id hid
    simp only [NodeIdTable.init, List.length_replicate]
    have : id / 64 ≤ max / 64 := Nat.div_le_div_right hid
    omega
  · refine ⟨(max / 64 + 1) * 64, ?_, ?_⟩
    · have := Nat.div_add_mod max 64
      omega
    · simp only [NodeIdTable.init, List.length_replicate]
      omega

/-- Witness for C10 at `max = 100`, in-bounds access at `id = 100`. -/
theorem isUsed_access_bounds_w :
    100 / 64 < (NodeIdTable.init 100).bitmarkers.length :=
  (isUsed_access_bounds 100).2.1 100 (by decide)

/-! ### OSMWay and `GraphBuilder::way_callback` -/

/-- `OSMWay`, restricted to the fields the verified claims read: the node
reference list, the road class (importance), the auto forward/backward access
flags (drivability), and the speed.  `speed : Option String` keeps the raw
classifier value; `none` models the C++ `float` that was never assigned (the
uninitialized local `default_speed` of `way_callback`).  The remaining
`set_*` calls of `way_callback` write fields none of the claims observe. -/
structure OSMWay where
  osmwayid : Nat
  nodes : List Nat
  road_class : Nat
  auto_forward : Bool
  auto_backward : Bool
  speed : Option String
deriving DecidableEq

/-- Road-class values, in the order the `road_class` switch of `way_callback`
enumerates them.  Modelled from the spec: the numeric enum lives in
`valhalla/baldr/graphconstants.h`, which is not under `src/`; only the order
(motorway best, `kTertiaryUnclassified` the tertiary threshold) matters. -/
def kTertiaryUnclassified : Nat := 3

/-- `RoadClass::kOther`, the default branch of the `road_class` switch. -/
def kOtherRoadClass : Nat := 7

/-- The `road_class` switch of `way_callback`: recognized enum values are kept,
everything else becomes `kOther`. -/
def roadClassOf (v : String) : Nat :=
  match v.toNat? with
  | some n => if n ≤ 6 then n else kOtherRoadClass
  | none => kOtherRoadClass

/-- One iteration of the tag loop of `way_callback`, over the state
`(way, has_speed, default_speed)`.  Only the branches touching the modelled
fields are distinguished; every other branch leaves them unchanged. -/
def applyWayTag (st : OSMWay × Bool × Option String) (kv : String × String) :
    OSMWay × Bool × Option String :=
  let (w, has_speed, default_speed) := st
  if kv.1 = "road_class" then
    ({ w with road_class := roadClassOf kv.2 }, has_speed, default_speed)
  else if kv.1 = "auto_forward" then
    ({ w with auto_forward := kv.2 = "true" }, has_speed, default_speed)
  else if kv.1 = "auto_backward" then
    ({ w with auto_backward := kv.2 = "true" }, has_speed, default_speed)
  else if kv.1 = "speed" then
    ({ w with speed := some kv.2 }, true, default_speed)
  else if kv.1 = "default_speed" then
    (w, has_speed, some kv.2)
  else
    (w, has_speed, default_speed)

/-- The mutable state of `GraphBuilder` that `way_callback` touches. -/
structure BuilderState where
  ways : List OSMWay
  shape : NodeIdTable
  intersection : NodeIdTable
  node_count : Nat
  edge_count : Nat

/-- The node-marking loop of `way_callback`: a ref already in `shape_` is
marked as an intersection (and `edge_count_` grows), otherwise `node_count_`
grows; every ref is added to `shape_`. -/
def markRefs (st : BuilderState) : List Nat → Except String BuilderState
  | [] => .ok st
  | ref :: rest => do
    let st' ←
      if st.shape.IsUsed ref then do
        let inter' ← st.intersection.set ref
        let shape' ← st.shape.set ref
        pure { st with intersection := inter', shape := shape',
                       edge_count := st.edge_count + 1 }
      else do
        let shape' ← st.shape.set ref
        pure { st with shape := shape', node_count := st.node_count + 1 }
    markRefs st' rest

/-- `GraphBuilder::way_callback`.  `results` is the output of the Lua tag
transform (the transform itself is an external hook); ways with fewer than two
refs or an empty transform result are dropped; otherwise the refs are marked,
the tag loop runs, and — exactly as in the source — when no `speed` tag was
seen the way's speed is assigned from the local `default_speed`, which is
`none` (uninitialized) when no `default_speed` tag was seen either.  The way
is appended regardless. -/
def way_callback (osmid : Nat) (results : List (String × String))
    (refs : List Nat) (st : BuilderState) : Except String BuilderState :=
  if refs.length < 2 then .ok st
  else if results.length = 0 then .ok st
  else do
    let w0 : OSMWay :=
      { osmwayid := osmid, nodes := refs, road_class := kOtherRoadClass,
        auto_forward := false, auto_backward := false, speed := none }
    let st1 ← markRefs st refs
    let interF ← st1.intersection.set (refs.headD 0)
    let interB ← interF.set (refs.getLastD 0)
    let st2 := { st1 with intersection := interB, edge_count := st1.edge_count + 2 }
    let (w1, has_speed, default_speed) := results.foldl applyWayTag (w0, false, none)
    let w2 := if has_speed then w1 else { w1 with speed := default_speed }
    .ok { st2 with ways := st2.ways ++ [w2] }

/-- A fresh builder state over small id tables (the source constant is
`kMaxOSMNodeId = 4000000000`; a 64-id table suffices for the fixture and
changes nothing in the control flow exercised). -/
def c8State : BuilderState :=
  { ways := [], shape := NodeIdTable.init 64, intersection := NodeIdTable.init 64,
    node_count := 0, edge_count := 0 }

/-- C8 (code bug): a way whose classifier output has neither a `speed` nor a
`default_speed` key is NOT rejected — `way_callback` appends it, with its
speed taken from the uninitialized local `default_speed` (modelled `none`).
The claim (and §9 of the spec) requires such ways to be rejected. -/
theorem way_callback_keeps_speedless_way :
    (way_callback 1 [("name", "Main Street")] [1, 2] c8State).map
      (fun st => st.ways.map (fun w => w.speed)) = .ok [none] := by
  rfl

/-! ### `GraphBuilder::ConstructEdges` -/

/-- The attribute bits of the intermediate `Edge`. -/
structure EdgeAttributes where
  driveableforward : Bool
  driveablereverse : Bool
  importance : Nat
deriving DecidableEq

/-- The intermediate `Edge` of graph construction.  `refs` lists the OSM node
ids whose lat/lngs make up `latlngs_` (source first): the C++ stores
`nodes_[r].latlng()` for exactly these nodes, so `latlngs_` is the pointwise
image of `refs` under the node table. -/
structure Edge where
  sourcenode : Nat
  targetnode : Nat
  wayindex : Nat
  refs : List Nat
  attributes : EdgeAttributes
deriving DecidableEq

instance : Inhabited Edge :=
  ⟨{ sourcenode := 0, targetnode := 0, wayindex := 0, refs := [],
     attributes := { driveableforward := false, driveablereverse := false,
                     importance := 0 } }⟩

/-- Modelled from the spec: the `Edge(nodeid, wayindex, latlng, way)`
constructor lives in `graphbuilder.h`, which is not under `src/`.  Per the
spec each edge starts at `nodeid` with that node's lat/lng as first shape
point and carries `way_index` and attribute bits derived from the way:
driveable forward/reverse and importance = road class. -/
def Edge.start (nodeid wayindex : Nat) (w : OSMWay) : Edge :=
  { sourcenode := nodeid, targetnode := 0, wayindex := wayindex,
    refs := [nodeid],
    attributes := { driveableforward := w.auto_forward,
                    driveablereverse := w.auto_backward,
                    importance := w.road_class } }

/-- The inner loop of `ConstructEdges` over the refs of one way (`rest` is
`refs[1..]`): each ref's lat/lng is appended to the current edge's shape; at
an intersection the edge is finished (`targetnode_ = ref`) and pushed, and a
new edge is started at the ref unless it is the way's last ref (`i < n - 1`).
A trailing unfinished edge (possible only when the last ref is not an
intersection) is dropped, as in the source. -/
def walkRefs (inter : Nat → Bool) (wayindex : Nat) (w : OSMWay) :
    Edge → List Nat → List Edge
  | _, [] => []
  | cur, r :: rest =>
    if inter r then
      if rest.isEmpty then
        [{ cur with refs := cur.refs ++ [r], targetnode := r }]
      else
        { cur with refs := cur.refs ++ [r], targetnode := r } ::
          walkRefs inter wayindex w (Edge.start r wayindex w) rest
    else
      walkRefs inter wayindex w { cur with refs := cur.refs ++ [r] } rest

/-- The edges `ConstructEdges` emits for one way.  A way with no refs is
undefined behaviour in the source (`way.nodes()[0]`); ways stored by
`way_callback` always have at least two refs. -/
def constructWayEdges (inter : Nat → Bool) (wayindex : Nat) (w : OSMWay) :
    List Edge :=
  match w.nodes with
  | [] => []
  | n0 :: rest => walkRefs inter wayindex w (Edge.start n0 wayindex w) rest

/-- The outer loop of `ConstructEdges` over `ways_`, keeping the way index. -/
def constructEdgesFrom (inter : Nat → Bool) : Nat → List OSMWay → List Edge
  | _, [] => []
  | wayindex, w :: ws =>
      constructWayEdges inter wayindex w ++
        constructEdgesFrom inter (wayindex + 1) ws

/-- `GraphBuilder::ConstructEdges`, as a function of the ways table and the
`intersection_` bitset membership. -/
def constructEdges (inter : Nat → Bool) (ways : List OSMWay) : List Edge :=
  constructEdgesFrom inter 0 ways

/-- The interior shape nodes of an edge: everything strictly between the two
endpoints. -/
def Edge.interior (e : Edge) : List Nat := (e.refs.drop 1).dropLast

theorem walkRefs_spec (inter : Nat → Bool) (wayindex : Nat) (w : OSMWay)
    (P : Nat → Prop) (hP : ∀ x, inter x = true → P x) :
    ∀ (rest : List Nat) (cur : Edge) (mids : List Nat),
      cur.refs = cur.sourcenode :: mids → (∀ r ∈ mids, inter r = false) →
      P cur.sourcenode →
      ∀ e ∈ walkRefs inter wayindex w cur rest,
        P e.sourcenode ∧ inter e.targetnode = true ∧
        (∀ r ∈ e.interior, inter r = false) ∧
        e.refs.head? = some e.sourcenode ∧
        e.refs.getLast? = some e.targetnode := by
  intro rest
  induction rest with
  | nil => intro cur mids h1 h3 h4 e he; simp [walkRefs] at he
  | cons r rest ih =>
    intro cur mids h1 h3 h4 e he
    simp only [walkRefs] at he
    by_cases hr : inter r = true
    · rw [if_pos hr] at he
      have hfin : ∀ e', e' = { cur with refs := cur.refs ++ [r], targetnode := r } →
          P e'.sourcenode ∧ inter e'.targetnode = true ∧
          (∀ x ∈ e'.interior, inter x = false) ∧
          e'.refs.head? = some e'.sourcenode ∧
          e'.refs.getLast? = some e'.targetnode := by
        rintro e' rfl
        refine ⟨h4, hr, ?_, ?_, ?_⟩
        · intro x hx
          simp only [Edge.interior, h1] at hx
          rw [List.cons_append, List.drop_one, List.tail_cons,
            List.dropLast_concat] at hx
          exact h3 x hx
        · simp [h1]
        · show (cur.refs ++ [r]).getLast? = some r
          exact List.getLast?_concat _
      by_cases hrest : rest.isEmpty = true
      · rw [if_pos hrest] at he
        simp only [List.mem_singleton] at he
        exact hfin e he
      · rw [if_neg hrest] at he
        rcases List.mem_cons.mp he with he | he
        · exact hfin e he
        · exact ih (Edge.start r wayindex w) [] rfl (by simp) (hP r hr) e he
    · rw [if_neg hr] at he
      refine ih { cur with refs := cur.refs ++ [r] } (mids ++ [r]) ?_ ?_ h4 e he
      · simp [h1]
      · intro x hx
        rcases List.mem_append.mp hx with hx | hx
        · exact h3 x hx
        · rw [List.mem_singleton.mp hx]
          exact Bool.not_eq_true _ ▸ (by simpa using hr)

theorem constructEdgesFrom_spec (inter : Nat → Bool) (ways : List OSMWay) :
    ∀ (k : Nat) (e : Edge), e ∈ constructEdgesFrom inter k ways →
      ((∃ w ∈ ways, w.nodes.head? = some e.sourcenode) ∨
        inter e.sourcenode = true) ∧
      inter e.targetnode = true ∧
      (∀ r ∈ e.interior, inter r = false) ∧
      e.refs.head? = some e.sourcenode ∧
      e.refs.getLast? = some e.targetnode := by
  induction ways with
  | nil => intro k e he; simp [constructEdgesFrom] at he
  | cons w ws ih =>
    intro k e he
    rcases List.mem_append.mp he with he | he
    · unfold constructWayEdges at he
      cases hn : w.nodes with
      | nil => rw [hn] at he; simp at he
      | cons n0 rest =>
        rw [hn] at he
        have := walkRefs_spec inter k w
          (fun s => w.nodes.head? = some s ∨ inter s = true)
          (fun x hx => Or.inr hx) rest (Edge.start n0 k w) [] rfl (by simp)
          (Or.inl (by rw [hn]; rfl)) e he
        refine ⟨?_, this.2.1, this.2.2.1, this.2.2.2⟩
        rcases this.1 with h | h
        · exact Or.inl ⟨w, by simp, h⟩
        · exact Or.inr h
    · have := ih (k + 1) e he
      refine ⟨?_, this.2⟩
      rcases this.1 with ⟨w', hw', h⟩ | h
      · exact Or.inl ⟨w', by simp [hw'], h⟩
      · exact Or.inr h

/-- C5: every edge `ConstructEdges` emits starts at its way's first ref or at
an intersection node, ends at an intersection node (hence at a way
endpoint-or-intersection), and none of its interior shape nodes is an
intersection. -/
theorem constructEdges_intersection_rule (inter : Nat → Bool)
    (ways : List OSMWay) (e : Edge) (he : e ∈ constructEdges inter ways) :
    ((∃ w ∈ ways, w.nodes.head? = some e.sourcenode) ∨
      inter e.sourcenode = true) ∧
    ((∃ w ∈ ways, w.nodes.getLast? = some e.targetnode) ∨
      inter e.targetnode = true) ∧
    (∀ r ∈ e.interior, inter r = false) ∧
    e.refs.head? = some e.sourcenode ∧
    e.refs.getLast? = some e.targetnode := by
  have h := constructEdgesFrom_spec inter ways 0 e he
  exact ⟨h.1, Or.inr h.2.1, h.2.2⟩

/-- Bool test that a list's last element is an intersection node. -/
def lastIsInter (inter : Nat → Bool) (l : List Nat) : Bool :=
  match l.getLast? with
  | some r => inter r
  | none => false

theorem walkRefs_cons (inter : Nat → Bool) (wayindex : Nat) (w : OSMWay)
    (cur : Edge) (r : Nat) (rest : List Nat) :
    walkRefs inter wayindex w cur (r :: rest) =
      if inter r then
        if rest.isEmpty then
          [{ cur with refs := cur.refs ++ [r], targetnode := r }]
        else
          { cur with refs := cur.refs ++ [r], targetnode := r } ::
            walkRefs inter wayindex w (Edge.start r wayindex w) rest
      else
        walkRefs inter wayindex w { cur with refs := cur.refs ++ [r] } rest := rfl

theorem walkRefs_segments (inter : Nat → Bool) (wayindex : Nat) (w : OSMWay) :
    ∀ (rest : List Nat) (cur : Edge), cur.refs ≠ [] →
      lastIsInter inter rest = true →
      ((walkRefs inter wayindex w cur rest).map
          (fun e => e.refs.length - 1)).sum
        = (cur.refs.length - 1) + rest.length := by
  intro rest
  induction rest with
  | nil => intro cur _ hlast; simp [lastIsInter] at hlast
  | cons r rest ih =>
    intro cur hcur hlast
    have hlen : cur.refs.length ≠ 0 := by simpa using hcur
    cases rest with
    | nil =>
      have hr : inter r = true := by simpa [lastIsInter] using hlast
      rw [walkRefs_cons, if_pos hr, if_pos (by simp : ([] : List Nat).isEmpty = true)]
      simp only [List.map_cons, List.map_nil, List.sum_cons, List.sum_nil,
        List.length_append, List.length_cons, List.length_nil]
      omega
    | cons b l =>
      have hlast' : lastIsInter inter (b :: l) = true := by
        simpa [lastIsInter, List.getLast?_cons_cons] using hlast
      by_cases hr : inter r = true
      · rw [walkRefs_cons, if_pos hr,
          if_neg (by simp : ¬((b :: l).isEmpty = true))]
        have hrec := ih (Edge.start r wayindex w) (by simp [Edge.start]) hlast'
        rw [List.map_cons, List.sum_cons, hrec]
        simp only [Edge.start, List.length_append, List.length_cons,
          List.length_nil]
        omega
      · rw [walkRefs_cons, if_neg hr]
        have hrec := ih { cur with refs := cur.refs ++ [r] } (by simp) hlast'
        rw [hrec]
        simp only [List.length_append, List.length_cons, List.length_nil]
        omega

theorem constructWayEdges_segments (inter : Nat → Bool) (wayindex : Nat)
    (w : OSMWay) (h2 : 2 ≤ w.nodes.length)
    (hlast : lastIsInter inter w.nodes = true) :
    ((constructWayEdges inter wayindex w).map
        (fun e => e.refs.length - 1)).sum = w.nodes.length - 1 := by
  unfold constructWayEdges
  cases hn : w.nodes with
  | nil => rw [hn] at h2; simp at h2
  | cons n0 rest =>
    rw [hn] at h2 hlast
    cases rest with
    | nil => simp at h2
    | cons b l =>
      have hlast' : lastIsInter inter (b :: l) = true := by
        simpa [lastIsInter, List.getLast?_cons_cons] using hlast
      have hseg := walkRefs_segments inter wayindex w (b :: l)
        (Edge.start n0 wayindex w) (by simp [Edge.start]) hlast'
      rw [hseg]
      simp [Edge.start]

/-- C6: when every stored way has at least two refs and ends at an
intersection node (as `way_callback` guarantees by setting the back ref in
`intersection_`), the total number of shape segments over all emitted edges
equals the sum over ways of `|refs| - 1`. -/
theorem constructEdges_conservation (inter : Nat → Bool) (ways : List OSMWay)
    (h : ∀ w ∈ ways, 2 ≤ w.nodes.length ∧ lastIsInter inter w.nodes = true) :
    ((constructEdges inter ways).map (fun e => e.refs.length - 1)).sum
      = (ways.map (fun w => w.nodes.length - 1)).sum := by
  unfold constructEdges
  suffices hgen : ∀ k, ((constructEdgesFrom inter k ways).map
      (fun e => e.refs.length - 1)).sum
      = (ways.map (fun w => w.nodes.length - 1)).sum from hgen 0
  induction ways with
  | nil => intro k; simp [constructEdgesFrom]
  | cons w ws ih =>
    intro k
    simp only [constructEdgesFrom, List.map_append, List.sum_append,
      List.map_cons, List.sum_cons]
    rw [constructWayEdges_segments inter k w (h w (by simp)).1 (h w (by simp)).2,
      ih (fun w' hw' => h w' (by simp [hw'])) (k + 1)]

/-- Fixture for the construction claims: nodes 1 and 3 are intersections. -/
def cInter : Nat → Bool := fun n => n == 1 || n == 3

def cWayA : OSMWay :=
  { osmwayid := 10, nodes := [1, 2, 3], road_class := 4,
    auto_forward := true, auto_backward := true, speed := some "50" }

def cWayB : OSMWay :=
  { osmwayid := 11, nodes := [3, 1], road_class := 2,
    auto_forward := true, auto_backward := false, speed := some "80" }

def cWays : List OSMWay := [cWayA, cWayB]

def cE1 : Edge :=
  { sourcenode := 1, targetnode := 3, wayindex := 0, refs := [1, 2, 3],
    attributes := { driveableforward := true, driveablereverse := true,
                    importance := 4 } }

/-- Witness for C5 on the fixture edge `[1, 2, 3]` of way A. -/
theorem constructEdges_intersection_rule_w :
    ((∃ w ∈ cWays, w.nodes.head? = some cE1.sourcenode) ∨
      cInter cE1.sourcenode = true) ∧
    ((∃ w ∈ cWays, w.nodes.getLast? = some cE1.targetnode) ∨
      cInter cE1.targetnode = true) ∧
    (∀ r ∈ cE1.interior, cInter r = false) ∧
    cE1.refs.head? = some cE1.sourcenode ∧
    cE1.refs.getLast? = some cE1.targetnode :=
  constructEdges_intersection_rule cInter cWays cE1 (by decide)

/-- Witness for C6 on the two-way fixture: 2 + 1 segments on both sides. -/
theorem constructEdges_conservation_w :
    ((constructEdges cInter cWays).map (fun e => e.refs.length - 1)).sum
      = (cWays.map (fun w => w.nodes.length - 1)).sum :=
  constructEdges_conservation cInter cWays (by decide)

/-! ### `EdgeSorter` and `GraphBuilder::SortEdgesFromNodes` -/

/-- `edges_[i]` — vector indexing with a default out-of-range value, as the
edge index lists only hold in-range indexes. -/
def edgeAt (edges : List Edge) (i : Nat) : Edge := edges.getD i default

/-- The drivability of edge `i` as seen from `osmnodeid`, exactly the inline
`e1drive`/`e2drive` computation of `EdgeSorter::operator()`: an edge is
forward at the node iff its source is the node; forward edges use
`driveableforward`, reverse ones `driveablereverse`. -/
def edgeDriveAt (edges : List Edge) (osmnodeid : Nat) (i : Nat) : Bool :=
  let e := edgeAt edges i
  let fwd := e.sourcenode == osmnodeid
  (fwd && e.attributes.driveableforward) || (!fwd && e.attributes.driveablereverse)

/-- `EdgeSorter::operator()`, the strict comparison handed to `std::sort` in
`SortEdgesFromNodes`. -/
def edgeSorterLt (edges : List Edge) (osmnodeid : Nat)
    (e1index e2index : Nat) : Bool :=
  let e1drive := edgeDriveAt edges osmnodeid e1index
  let e2drive := edgeDriveAt edges osmnodeid e2index
  if e1drive == e2drive then
    decide ((edgeAt edges e1index).attributes.importance <
      (edgeAt edges e2index).attributes.importance)
  else if e1drive && !e2drive then true
  else false

/-- What `std::sort` guarantees for a node's edge index list in
`SortEdgesFromNodes`: the output is a permutation of the input in which no
later element compares strictly below an earlier one.  `std::sort` promises
nothing more — in particular it is not stable, so the order of tied elements
is unspecified. -/
def IsSortResult (lt : Nat → Nat → Bool) (l l' : List Nat) : Prop :=
  l'.Perm l ∧ List.Pairwise (fun a b => lt b a = false) l'

/-- Modelled from the spec: the sort keys the claim states — drivability at
the node descending, then importance ascending. -/
def specKeyLe (edges : List Edge) (osmnodeid : Nat) (i j : Nat) : Prop :=
  (edgeDriveAt edges osmnodeid j).toNat < (edgeDriveAt edges osmnodeid i).toNat ∨
  (edgeDriveAt edges osmnodeid i = edgeDriveAt edges osmnodeid j ∧
    (edgeAt edges i).attributes.importance ≤ (edgeAt edges j).attributes.importance)

theorem keyLe_of_not_sorterLt (edges : List Edge) (osmnodeid i j : Nat)
    (h : edgeSorterLt edges osmnodeid j i = false) :
    specKeyLe edges osmnodeid i j := by
  unfold edgeSorterLt at h
  unfold specKeyLe
  cases hdi : edgeDriveAt edges osmnodeid i <;>
    cases hdj : edgeDriveAt edges osmnodeid j <;>
      rw [hdi, hdj] at h <;> simp at h
  · exact Or.inr ⟨rfl, by omega⟩
  · exact Or.inl (by decide)
  · exact Or.inr ⟨rfl, by omega⟩

/-- C3 (amended): any `std::sort` outcome of a node's edge index list under
`EdgeSorter` is a permutation ordered by drivability at the node descending,
then importance ascending.  The tie order is NOT the insertion order in
general (see the counterexample): `std::sort` is not stable. -/
theorem sortEdgesFromNodes_sorted (edges : List Edge) (osmnodeid : Nat)
    (l l' : List Nat) (h : IsSortResult (edgeSorterLt edges osmnodeid) l l') :
    l'.Perm l ∧ List.Pairwise (specKeyLe edges osmnodeid) l' :=
  ⟨h.1, h.2.imp (fun hab => keyLe_of_not_sorterLt edges osmnodeid _ _ hab)⟩

/-- Two edges at node 5 with identical drivability and importance. -/
def tieEdges : List Edge :=
  [{ sourcenode := 5, targetnode := 6, wayindex := 0, refs := [5, 6],
     attributes := { driveableforward := true, driveablereverse := true,
                     importance := 2 } },
   { sourcenode := 5, targetnode := 7, wayindex := 1, refs := [5, 7],
     attributes := { driveableforward := true, driveablereverse := true,
                     importance := 2 } }]

/-- C3 counterexample: on two edges tied under both sort keys, the reversed
list `[1, 0]` is a legitimate `std::sort` outcome for input `[0, 1]`, yet it
does not keep the insertion order — the claimed stable tie-break is not
guaranteed by the source, which uses the unstable `std::sort`. -/
theorem edgeSorter_stability_counterexample :
    IsSortResult (edgeSorterLt tieEdges 5) [0, 1] [1, 0] ∧
    [1, 0] ≠ ([0, 1] : List Nat) := by
  refine ⟨⟨by decide, by decide⟩, by decide⟩

/-- Separator edges for the C3 witness: edge 0 is driveable from node 5,
edge 1 is not. -/
def sEdges : List Edge :=
  [{ sourcenode := 5, targetnode := 6, wayindex := 0, refs := [5, 6],
     attributes := { driveableforward := true, driveablereverse := false,
                     importance := 2 } },
   { sourcenode := 5, targetnode := 7, wayindex := 1, refs := [5, 7],
     attributes := { driveableforward := false, driveablereverse := true,
                     importance := 1 } }]

/-- Witness for C3: `[0, 1]` is the sorted outcome for input `[1, 0]`. -/
theorem sortEdgesFromNodes_sorted_w :
    List.Perm [0, 1] [1, 0] ∧ List.Pairwise (specKeyLe sEdges 5) [0, 1] :=
  sortEdgesFromNodes_sorted sEdges 5 [1, 0] [0, 1] ⟨by decide, by decide⟩

/-! ### Opposing edges: `GetOpposingIndex` (tile build) and
`GetOpposingEdgeIndex` (validation) -/

/-- `OSMNode`, restricted to the fields the opposing-edge and not-thru code
reads: the lat/lng (modelled as an integer pair) and the incident edge index
list. -/
structure OSMNode where
  latlng : Int × Int
  edges : List Nat
deriving DecidableEq

instance : Inhabited OSMNode := ⟨{ latlng := (0, 0), edges := [] }⟩

/-- `nodes.find(id)` over the `unordered_map<uint64_t, OSMNode>`, modelled as
an association list. -/
def findNode (nodes : List (Nat × OSMNode)) (id : Nat) : Option OSMNode :=
  (nodes.find? (fun p => p.1 == id)).map (fun p => p.2)

/-- The scan inside `GetOpposingIndex`: walk the end node's edge index list,
counting `n` up, and return the position of the first edge joining `endnode`
and `startnode` in either orientation.  No length and no shortcut test. -/
def findOpposingFrom (endnode startnode : Nat) (edges : List Edge) :
    List Nat → Nat → Option Nat
  | [], _ => none
  | ei :: rest, n =>
    let e := edgeAt edges ei
    if (e.sourcenode == endnode && e.targetnode == startnode) ||
       (e.targetnode == endnode && e.sourcenode == startnode) then
      some n
    else
      findOpposingFrom endnode startnode edges rest (n + 1)

/-- `GetOpposingIndex` (tile build): scans the end node's edges and returns
the local position of the first match, or `31` (after logging an error) when
the node is missing or no edge matches. -/
def GetOpposingIndex (endnode startnode : Nat) (nodes : List (Nat × OSMNode))
    (edges : List Edge) : Nat :=
  match findNode nodes endnode with
  | some nd => (findOpposingFrom endnode startnode edges nd.edges 0).getD 31
  | none => 31

/-- The end node of the directed edge `BuildTileSet` builds from intermediate
edge `e` at node `osmnodeid`: forward orientation (`sourcenode_ == osmnodeid`)
ends at the target, otherwise at the source. -/
def dirEndNodeAt (osmnodeid : Nat) (e : Edge) : Nat :=
  if e.sourcenode = osmnodeid then e.targetnode else e.sourcenode

/-- The matched edge joins `endnode` back to `startnode` (either way round). -/
def connectsBack (endnode startnode : Nat) (e : Edge) : Prop :=
  (e.sourcenode = endnode ∧ e.targetnode = startnode) ∨
  (e.targetnode = endnode ∧ e.sourcenode = startnode)

/-- Modelled from the spec: the directed edge length at tile build is the
polyline length of the edge shape (`PointLL::Length`, in midgard, outside
`src/`).  The great-circle metric is replaced by an executable integer
metric; `GetOpposingIndex` never inspects lengths, so any metric separating
the two fixture shapes witnesses the same behaviour. -/
def polylineLength : List (Int × Int) → Nat
  | [] => 0
  | [_] => 0
  | p :: q :: rest =>
      ((p.1 - q.1).natAbs + (p.2 - q.2).natAbs) + polylineLength (q :: rest)

/-- The shape points of an intermediate edge, read off the node table. -/
def edgeLatLngs (nodes : List (Nat × OSMNode)) (e : Edge) : List (Int × Int) :=
  e.refs.map (fun r => ((findNode nodes r).getD default).latlng)

def edgeLength (nodes : List (Nat × OSMNode)) (e : Edge) : Nat :=
  polylineLength (edgeLatLngs nodes e)

theorem findOpposingFrom_spec (endnode startnode : Nat) (edges : List Edge) :
    ∀ (edgeids : List Nat) (n0 n : Nat),
      findOpposingFrom endnode startnode edges edgeids n0 = some n →
      n0 ≤ n ∧ n - n0 < edgeids.length ∧
      connectsBack endnode startnode (edgeAt edges (edgeids.getD (n - n0) 0)) := by
  intro edgeids
  induction edgeids with
  | nil => intro n0 n h; simp [findOpposingFrom] at h
  | cons ei rest ih =>
    intro n0 n h
    simp only [findOpposingFrom] at h
    by_cases hm : ((edgeAt edges ei).sourcenode == endnode &&
        (edgeAt edges ei).targetnode == startnode ||
        ((edgeAt edges ei).targetnode == endnode &&
        (edgeAt edges ei).sourcenode == startnode)) = true
    · rw [if_pos hm] at h
      cases h
      refine ⟨le_refl _, by simp, ?_⟩
      simp only [Nat.sub_self, List.getD_cons_zero]
      rcases Bool.or_eq_true_iff.mp hm with h' | h'
      · rw [Bool.and_eq_true] at h'
        exact Or.inl ⟨beq_iff_eq.mp h'.1, beq_iff_eq.mp h'.2⟩
      · rw [Bool.and_eq_true] at h'
        exact Or.inr ⟨beq_iff_eq.mp h'.1, beq_iff_eq.mp h'.2⟩
    · rw [if_neg hm] at h
      obtain ⟨h1, h2, h3⟩ := ih (n0 + 1) n h
      refine ⟨by omega, by simp; omega, ?_⟩
      have : n - n0 = (n - (n0 + 1)) + 1 := by omega
      rw [this, List.getD_cons_succ]
      exact h3

theorem connectsBack_dirEndNode (endnode startnode : Nat) (e : Edge)
    (h : connectsBack endnode startnode e) :
    dirEndNodeAt endnode e = startnode := by
  unfold dirEndNodeAt
  rcases h with ⟨h1, h2⟩ | ⟨h1, h2⟩
  · rw [if_pos h1]; exact h2
  · by_cases hs : e.sourcenode = endnode
    · rw [if_pos hs]; omega
    · rw [if_neg hs]; exact h2

/-- The DirectedEdge fields read by the validator's `GetOpposingEdgeIndex`:
the packed end node id, the packed integer length, the shortcut flag and the
use. -/
structure DirectedEdge where
  endnode : Nat
  length : Nat
  shortcut : Bool
  use : Nat
deriving DecidableEq

/-- `kMaxEdgesPerNode`, the sentinel `GetOpposingEdgeIndex` returns when no
opposing edge is found.  Modelled from the spec: the constant lives in
`valhalla/baldr/graphconstants.h`, outside `src/`; only its role as a
sentinel is used. -/
def kMaxEdgesPerNode : Nat := 127

/-- The local `absurd_index` constant of `GetOpposingEdgeIndex`. -/
def absurdIndex : Nat := 777777

/-- The scan loop of `GetOpposingEdgeIndex`: keep the LAST index whose end
node, shortcut flag and length all match, incrementing `dupcount` on every
match after the first. -/
def opposingScan (startnode : Nat) (edge : DirectedEdge) :
    List DirectedEdge → Nat → Nat → Nat → Nat × Nat
  | [], _, opp, dup => (opp, dup)
  | de :: rest, i, opp, dup =>
    if de.endnode == startnode && edge.shortcut == de.shortcut &&
       de.length == edge.length then
      opposingScan startnode edge rest (i + 1) i
        (if opp ≠ absurdIndex then dup + 1 else dup)
    else
      opposingScan startnode edge rest (i + 1) opp dup

/-- `GetOpposingEdgeIndex` (validation): scans the directed edges of the end
node (`endEdges`); returns the matched local index and the duplicate count,
or `kMaxEdgesPerNode` (after logging) when nothing matches.  The
`endnodeiso_` output and the logging are elided. -/
def GetOpposingEdgeIndex (startnode : Nat) (edge : DirectedEdge)
    (endEdges : List DirectedEdge) : Nat × Nat :=
  if (opposingScan startnode edge endEdges 0 absurdIndex 0).1 = absurdIndex then
    (kMaxEdgesPerNode, (opposingScan startnode edge endEdges 0 absurdIndex 0).2)
  else
    opposingScan startnode edge endEdges 0 absurdIndex 0

theorem opposingScan_fst (startnode : Nat) (edge : DirectedEdge) :
    ∀ (des : List DirectedEdge) (i opp dup : Nat),
      (opposingScan startnode edge des i opp dup).1 = opp ∨
      ∃ k, ∃ hk : k < des.length,
        (opposingScan startnode edge des i opp dup).1 = i + k ∧
        (des.get ⟨k, hk⟩).endnode = startnode ∧
        (des.get ⟨k, hk⟩).shortcut = edge.shortcut ∧
        (des.get ⟨k, hk⟩).length = edge.length := by
  intro des
  induction des with
  | nil => intro i opp dup; exact Or.inl rfl
  | cons de rest ih =>
    intro i opp dup
    simp only [opposingScan]
    by_cases hm : (de.endnode == startnode && edge.shortcut == de.shortcut &&
        de.length == edge.length) = true
    · rw [if_pos hm]
      simp only [Bool.and_eq_true, beq_iff_eq] at hm
      rcases ih (i + 1) i (if opp ≠ absurdIndex then dup + 1 else dup) with h | h
      · exact Or.inr ⟨0, by simp, by rw [h]; omega, hm.1.1, (hm.1.2).symm, hm.2⟩
      · obtain ⟨k, hk, h1, h2⟩ := h
        exact Or.inr ⟨k + 1, by simpa using Nat.succ_lt_succ hk,
          by rw [h1]; omega, h2⟩
    · rw [if_neg hm]
      rcases ih (i + 1) opp dup with h | h
      · exact Or.inl h
      · obtain ⟨k, hk, h1, h2⟩ := h
        exact Or.inr ⟨k + 1, by simpa using Nat.succ_lt_succ hk,
          by rw [h1]; omega, h2⟩

/-- C1 (amended): when the validator's `GetOpposingEdgeIndex` resolves an
opposing edge (returns an index other than the `kMaxEdgesPerNode` sentinel),
the directed edge at that index at the end node has `endnode = startnode`,
the same shortcut flag and the same packed length — the scan tests exactly
these.  When the tile-build `GetOpposingIndex` scan finds a match, the
matched edge joins the end node back to the start node, so the directed edge
built from it ends at `source(e)`; but that scan checks neither length nor
shortcut, and the length equality can fail (see the counterexample). -/
theorem opposing_edge_resolution :
    (∀ (startnode : Nat) (edge : DirectedEdge) (endEdges : List DirectedEdge),
      (GetOpposingEdgeIndex startnode edge endEdges).1 ≠ kMaxEdgesPerNode →
      ∃ h : (GetOpposingEdgeIndex startnode edge endEdges).1 < endEdges.length,
        (endEdges.get ⟨(GetOpposingEdgeIndex startnode edge endEdges).1, h⟩).endnode
            = startnode ∧
        (endEdges.get ⟨(GetOpposingEdgeIndex startnode edge endEdges).1, h⟩).shortcut
            = edge.shortcut ∧
        (endEdges.get ⟨(GetOpposingEdgeIndex startnode edge endEdges).1, h⟩).length
            = edge.length) ∧
    (∀ (endnode startnode : Nat) (nodes : List (Nat × OSMNode))
        (edges : List Edge) (nd : OSMNode) (n : Nat),
      findNode nodes endnode = some nd →
      findOpposingFrom endnode startnode edges nd.edges 0 = some n →
      GetOpposingIndex endnode startnode nodes edges = n ∧
      n < nd.edges.length ∧
      dirEndNodeAt endnode (edgeAt edges (nd.edges.getD n 0)) = startnode) := by
  constructor
  · intro startnode edge endEdges hne
    unfold GetOpposingEdgeIndex at hne ⊢
    rcases opposingScan_fst startnode edge endEdges 0 absurdIndex 0 with h | h
    · rw [if_pos h] at hne
      exact absurd rfl hne
    · obtain ⟨k, hk, h1, h2, h3, h4⟩ := h
      have hres : (opposingScan startnode edge endEdges 0 absurdIndex 0).1 = k := by
        rw [h1]; exact Nat.zero_add k
      by_cases hcase : k = absurdIndex
      · rw [hres, if_pos hcase] at hne
        exact absurd rfl hne
      · rw [if_neg (by rw [hres]; exact hcase)] at hne ⊢
        rw [hres]
        exact ⟨hk, h2, h3, h4⟩
  · intro endnode startnode nodes edges nd n hfind hopp
    obtain ⟨h1, h2, h3⟩ := findOpposingFrom_spec endnode startnode edges nd.edges 0 n hopp
    rw [Nat.sub_zero] at h2 h3
    refine ⟨?_, h2, connectsBack_dirEndNode _ _ _ h3⟩
    unfold GetOpposingIndex
    rw [hfind]
    show (findOpposingFrom endnode startnode edges nd.edges 0).getD 31 = n
    rw [hopp]
    rfl

/-- Parallel-edge fixture: two ways join nodes 0 and 100; edge 1 runs through
the off-axis shape node 55, so the two shapes have different lengths. -/
def pNodes : List (Nat × OSMNode) :=
  [(0, { latlng := (0, 0), edges := [0, 1] }),
   (55, { latlng := (5, 0), edges := [] }),
   (100, { latlng := (0, 3), edges := [0, 1] })]

def pEdges : List Edge :=
  [{ sourcenode := 0, targetnode := 100, wayindex := 0, refs := [0, 100],
     attributes := { driveableforward := true, driveablereverse := true,
                     importance := 4 } },
   { sourcenode := 0, targetnode := 100, wayindex := 1, refs := [0, 55, 100],
     attributes := { driveableforward := true, driveablereverse := true,
                     importance := 4 } }]

/-- C1 counterexample: at tile build, the directed edge built from edge 1 at
node 0 resolves opposing local index 0 at its end node 100, but the edge at
that index (edge 0, length 3) has a different length than edge 1 (length 13):
`GetOpposingIndex` matches on connectivity only, so `e'.length == e.length`
fails for parallel edges. -/
theorem opposing_length_mismatch :
    (findNode pNodes 100).map (fun nd => nd.edges) = some [0, 1] ∧
    findOpposingFrom 100 0 pEdges [0, 1] 0 = some 0 ∧
    GetOpposingIndex 100 0 pNodes pEdges = 0 ∧
    edgeLength pNodes (edgeAt pEdges ([0, 1].getD 0 0)) = 3 ∧
    edgeLength pNodes (edgeAt pEdges 1) = 13 ∧
    (3 : Nat) ≠ 13 := by
  refine ⟨by decide, by decide, by decide, by decide, by decide, by decide⟩

/-- Witness for C1, validation conjunct at a two-edge end node, tile-build
conjunct on the parallel-edge fixture. -/
theorem opposing_edge_resolution_w :
    (∃ _h : (GetOpposingEdgeIndex 5
        { endnode := 9, length := 70, shortcut := false, use := 0 }
        [{ endnode := 4, length := 70, shortcut := false, use := 0 },
         { endnode := 5, length := 70, shortcut := false, use := 0 }]).1 <
        ([{ endnode := 4, length := 70, shortcut := false, use := 0 },
          { endnode := 5, length := 70, shortcut := false, use := 0 }] :
            List DirectedEdge).length, True) ∧
    dirEndNodeAt 100 (edgeAt pEdges ((([(0 : Nat), 1]).getD 0 0))) = 0 := by
  constructor
  · obtain ⟨h, -⟩ := (opposing_edge_resolution.1 5
      { endnode := 9, length := 70, shortcut := false, use := 0 }
      [{ endnode := 4, length := 70, shortcut := false, use := 0 },
       { endnode := 5, length := 70, shortcut := false, use := 0 }] (by decide))
    exact ⟨h, trivial⟩
  · exact (opposing_edge_resolution.2 100 0 pNodes pEdges
      { latlng := (0, 3), edges := [0, 1] } 0 (by decide) (by decide)).2.2

/-! ### `IsNoThroughEdge` and the not-thru flag -/

/-- `kMaxNoThruTries`, the expansion bound. -/
def kMaxNoThruTries : Nat := 256

/-- `emplace` into a set modelled as a duplicate-free list. -/
def insertUnique (x : Nat) (s : List Nat) : List Nat :=
  if x ∈ s then s else s ++ [x]

/-- The inner for-loop of `IsNoThroughEdge` expanding the edges of one node:
the start edge index is skipped; the far end of each other edge is computed
relative to the POPPED node `node`; reaching the start node or an edge of
importance tertiary-or-better returns false for the whole search (`none`
here); otherwise the far end is added to the expand set. -/
def expandEdges (startnode startedgeindex : Nat) (edges : List Edge)
    (node : Nat) : List Nat → List Nat → Option (List Nat)
  | [], expandset => some expandset
  | ei :: rest, expandset =>
    if ei = startedgeindex then
      expandEdges startnode startedgeindex edges node rest expandset
    else
      let e := edgeAt edges ei
      let osmendnode := if e.sourcenode == node then e.targetnode
                        else e.sourcenode
      if osmendnode = startnode ∨
         e.attributes.importance ≤ kTertiaryUnclassified then
        none
      else
        expandEdges startnode startedgeindex edges node rest
          (insertUnique osmendnode expandset)

/-- The while-loop of `IsNoThroughEdge`.  Note the faithful rendering of the
source defect: every iteration expands `nodes.find(endnode)` — the FIXED end
node of the edge under test — rather than the node just popped from the
expand set, and `visitedset` is populated but never consulted.  The C++ pops
`*expandset.begin()` of an `unordered_set` (unspecified order); here the
expand set is an insertion-ordered duplicate-free list popped at the head.
On the fixture below the expand set is a singleton at every pop, so every
iteration order gives the same result. -/
def noThruLoop (startnode endnode startedgeindex : Nat)
    (nodes : List (Nat × OSMNode)) (edges : List Edge) :
    Nat → List Nat → List Nat → Bool
  | 0, _, _ => false
  | fuel + 1, expandset, visitedset =>
    match expandset with
    | [] => true
    | node :: restExpand =>
      let visited' := insertUnique node visitedset
      match findNode nodes endnode with
      | none =>
          noThruLoop startnode endnode startedgeindex nodes edges fuel
            restExpand visited'
      | some nd =>
        match expandEdges startnode startedgeindex edges node nd.edges
            restExpand with
        | none => false
        | some expand' =>
            noThruLoop startnode endnode startedgeindex nodes edges fuel
              expand' visited'

/-- `IsNoThroughEdge`: seeds the expand set with the end node and runs at
most `kMaxNoThruTries` pops. -/
def IsNoThroughEdge (startnode endnode startedgeindex : Nat)
    (nodes : List (Nat × OSMNode)) (edges : List Edge) : Bool :=
  noThruLoop startnode endnode startedgeindex nodes edges kMaxNoThruTries
    [endnode] []

/-- Modelled from the spec: the expansion step of the standard bounded BFS
the claim describes — from the popped node's OWN edges, excluding the start
edge, returning thru (`none`) on reaching the start node or a
tertiary-or-better edge, and never queueing a visited or already-queued
node. -/
def specExpandEdges (startnode startedgeindex : Nat) (edges : List Edge)
    (visited : List Nat) (node : Nat) : List Nat → List Nat → Option (List Nat)
  | [], frontier => some frontier
  | ei :: rest, frontier =>
    if ei = startedgeindex then
      specExpandEdges startnode startedgeindex edges visited node rest frontier
    else
      let e := edgeAt edges ei
      let nb := if e.sourcenode == node then e.targetnode else e.sourcenode
      if nb = startnode ∨
         e.attributes.importance ≤ kTertiaryUnclassified then
        none
      else if nb ∈ visited ∨ nb ∈ frontier then
        specExpandEdges startnode startedgeindex edges visited node rest frontier
      else
        specExpandEdges startnode startedgeindex edges visited node rest
          (frontier ++ [nb])

/-- Modelled from the spec: the bounded BFS loop — pop a frontier node, mark
it visited, expand its own outgoing edges; at the bound, true only if the
frontier is empty. -/
def specNoThruLoop (startnode startedgeindex : Nat)
    (nodes : List (Nat × OSMNode)) (edges : List Edge) :
    Nat → List Nat → List Nat → Bool
  | 0, frontier, _ => frontier.isEmpty
  | fuel + 1, frontier, visited =>
    match frontier with
    | [] => true
    | node :: rest =>
      let visited' := node :: visited
      match findNode nodes node with
      | none => specNoThruLoop startnode startedgeindex nodes edges fuel rest
          visited'
      | some nd =>
        match specExpandEdges startnode startedgeindex edges visited' node
            nd.edges rest with
        | none => false
        | some frontier' =>
            specNoThruLoop startnode startedgeindex nodes edges fuel frontier'
              visited'

/-- Modelled from the spec: the not-thru test the claim describes, a bounded
BFS from the end node. -/
def specNotThru (startnode endnode startedgeindex : Nat)
    (nodes : List (Nat × OSMNode)) (edges : List Edge) : Bool :=
  specNoThruLoop startnode startedgeindex nodes edges kMaxNoThruTries
    [endnode] []

/-- The not-thru dispatch of `BuildTileSet` (forward case shown; the reverse
case swaps the node roles): tertiary-or-better edges get `not_thru = false`
outright, all others run `IsNoThroughEdge`. -/
def notThruFlag (startnode endnode startedgeindex importance : Nat)
    (nodes : List (Nat × OSMNode)) (edges : List Edge) : Bool :=
  if importance ≤ kTertiaryUnclassified then false
  else IsNoThroughEdge startnode endnode startedgeindex nodes edges

/-- Dead-end chain fixture: residential edges 0—1—2; the edge under test is
edge 0 from node 0 to node 1, so the region beyond node 1 is a cul-de-sac. -/
def nThruNodes : List (Nat × OSMNode) :=
  [(0, { latlng := (0, 0), edges := [0] }),
   (1, { latlng := (1, 0), edges := [0, 1] }),
   (2, { latlng := (2, 0), edges := [1] })]

def nThruEdges : List Edge :=
  [{ sourcenode := 0, targetnode := 1, wayindex := 0, refs := [0, 1],
     attributes := { driveableforward := true, driveablereverse := true,
                     importance := 4 } },
   { sourcenode := 1, targetnode := 2, wayindex := 1, refs := [1, 2],
     attributes := { driveableforward := true, driveablereverse := true,
                     importance := 4 } }]

/-- C2 (code bug): on the dead-end chain the claimed BFS empties its frontier
after three expansions and reports not-thru (`true`); the source loop keeps
re-expanding the fixed end node's edge list, never empties its expand set,
exhausts the 256-try bound and returns `false`.  Tertiary-or-better edges do
get `not_thru = false` outright, as the claim states. -/
theorem isNoThroughEdge_diverges :
    IsNoThroughEdge 0 1 0 nThruNodes nThruEdges = false ∧
    specNotThru 0 1 0 nThruNodes nThruEdges = true ∧
    notThruFlag 0 1 0 2 nThruNodes nThruEdges = false := by
  refine ⟨by decide, by decide, by decide⟩

/-! ### Country crossings (`validate`) -/

/-- The country-crossing assignment of `validate`: the flag (initially
`prev`, false as built) is set when the begin ISO is non-empty, the end ISO
is non-empty, and they differ. -/
def setCtryCrossing (begin_node_iso end_node_iso : String) (prev : Bool) :
    Bool :=
  if ¬ begin_node_iso = "" ∧ ¬ end_node_iso = "" ∧
      begin_node_iso ≠ end_node_iso then true
  else prev

/-- Modelled from the spec: the claim's condition — the END node's ISO is
non-empty and differs from the source's (nothing about the begin ISO). -/
def specCountryCrossing (begin_node_iso end_node_iso : String) : Bool :=
  decide (¬ end_node_iso = "" ∧ ¬ begin_node_iso = end_node_iso)

/-- C4 counterexample: with an empty begin ISO and end ISO "US" the claim's
condition holds, but the source leaves the flag false — the source also
requires the BEGIN ISO to be non-empty. -/
theorem country_crossing_counterexample :
    specCountryCrossing "" "US" = true ∧
    setCtryCrossing "" "US" false = false := by
  refine ⟨by decide, by decide⟩

/-- C4 (amended): the flag is set exactly when BOTH ISO codes are non-empty
and differ; that condition is symmetric in the two ISO codes, so an edge and
its resolved opposing edge (which joins the same two nodes with the ISO roles
swapped, by C1) get equal `country_crossing` flags. -/
theorem country_crossing_iff_symm (b e : String) :
    (setCtryCrossing b e false = true ↔ (b ≠ "" ∧ e ≠ "" ∧ b ≠ e)) ∧
    setCtryCrossing b e false = setCtryCrossing e b false := by
  have hsym : (¬ b = "" ∧ ¬ e = "" ∧ b ≠ e) ↔ (¬ e = "" ∧ ¬ b = "" ∧ e ≠ b) := by
    constructor <;> rintro ⟨h1, h2, h3⟩ <;> exact ⟨h2, h1, Ne.symm h3⟩
  unfold setCtryCrossing
  by_cases h : ¬ b = "" ∧ ¬ e = "" ∧ b ≠ e
  · rw [if_pos h, if_pos (hsym.mp h)]
    exact ⟨⟨fun _ => ⟨h.1, h.2.1, h.2.2⟩, fun _ => rfl⟩, rfl⟩
  · rw [if_neg h, if_neg (fun hc => h (hsym.mpr hc))]
    exact ⟨⟨fun hfalse => by simp at hfalse,
      fun hc => absurd ⟨hc.1, hc.2.1, hc.2.2⟩ h⟩, rfl⟩

/-! ### Worker result slots (`BuildTileSet` / `BuildLocalTiles`) -/

/-- The per-tile loop body of `BuildTileSet` over the outcome of each tile
build (`Except.error` models a thrown exception): on the first exception the
worker stores it in its promise (result slot) and returns; otherwise it
accumulates the bytes written and stores the total. -/
def buildTileSetGo : List (Except String Nat) → Nat → Except String Nat
  | [], written => .ok written
  | .ok size :: rest, written => buildTileSetGo rest (written + size)
  | .error e :: _, _ => .error e

/-- The value a worker's result slot holds after `BuildTileSet`. -/
def buildTileSetResult (outcomes : List (Except String Nat)) :
    Except String Nat :=
  buildTileSetGo outcomes 0

/-- One iteration of the result-checking loop of `BuildLocalTiles`:
`result.get_future().get()` rethrows a stored exception, but the enclosing
catch block is empty (its body is only a TODO comment), so the exception is
swallowed and the loop moves on. -/
def checkOutcome (r : Except String Nat) : Except String Unit :=
  match r with
  | .ok _ => .ok ()
  | .error _ => .ok ()

/-- The whole result-checking loop of `BuildLocalTiles`, run after all worker
threads are joined. -/
def buildLocalTilesCheck (results : List (Except String Nat)) :
    Except String Unit :=
  results.foldl (fun acc r => acc.bind fun _ => checkOutcome r) (.ok ())

theorem buildLocalTilesCheck_ok :
    ∀ results : List (Except String Nat),
      buildLocalTilesCheck results = Except.ok () := by
  intro results
  unfold buildLocalTilesCheck
  induction results with
  | nil => rfl
  | cons r rest ih =>
    rw [List.foldl_cons]
    have hstep : ((Except.ok () : Except String Unit).bind
        fun _ => checkOutcome r) = Except.ok () := by
      cases r <;> rfl
    rw [hstep]
    exact ih

/-- C7 (code bug): a worker that throws does store the exception in its
result slot and stop (first conjunct), but `BuildLocalTiles` — after joining
all threads — swallows every stored exception in its empty catch block and
returns normally (second and third conjuncts), instead of rethrowing to its
caller as the claim states. -/
theorem buildLocalTiles_swallows_exception :
    buildTileSetResult [Except.error "tile build failed", Except.ok 10]
      = Except.error "tile build failed" ∧
    (∀ results : List (Except String Nat),
      buildLocalTilesCheck results = Except.ok ()) ∧
    buildLocalTilesCheck [Except.error "tile build failed"] = Except.ok () := by
  refine ⟨rfl, fun results => buildLocalTilesCheck_ok results, rfl⟩

end Mjolnir
